import Mathlib

/-!
Verification of the natural-language specification of the `lorax` repository
(a Rust implementation of the Lox language: tree-walk interpreter and a
skeletal bytecode VM) against its source, by a shallow embedding in Lean.

Conventions of the embedding:
* `Vec<u8>` is `List (Fin 256)`; `u8` is `Fin 256`; `usize`/`u32`/`u64` are `Nat`.
* `f64` is modeled as `Rat` (the claims checked here never exercise NaN,
  infinities or rounding).
* `HashMap`/`HashSet` are association lists / lists, with their operations
  translated to the extensionally equal list operations.
* Rust functions that can panic are modeled with `Option` (`none` = panic),
  or a designated error constructor where noted.
* Interpreter recursion (which in Rust is bounded only by the OS stack) is
  modeled with an explicit fuel parameter; `none` means fuel ran out.
* Source spans that only feed error messages are kept where the claims
  mention them (scanner) and dropped where they cannot influence a claim
  (interpreter error values carry their tokens instead).
-/

namespace Rlox

/-! ## Bytecode: opcodes, codec, chunk
Embeds `rlox-vm/src/opcode.rs`, `rlox-vm/src/enconding.rs` and
`rlox-vm/src/chunk.rs` (whose `Chunk::add_constant` is byte-for-byte the one
in `rlox-compiler/src/chunk.rs`). -/

/-- A byte of the instruction stream (`u8`). -/
abbrev Byte := Fin 256

/-- The constant-pool value (`Value` in `rlox-compiler/src/value.rs`, a
newtype over `f64`; `rlox-vm/src/value.rs` is not in the snapshot but is
used identically). The claims only store and index values, never compute
with them. -/
structure Value where
  val : Rat
deriving DecidableEq

/-- The operand of `Constant` (`type Addr = u8`). -/
abbrev Addr := Byte

/-- `OpCode` from `rlox-vm/src/opcode.rs` lines 16-25. -/
inductive OpCode where
  | noOp
  | ret
  | constant (addr : Addr)
  | neg
  | add
  | sub
  | mul
  | div
deriving DecidableEq

/-- `OpDecodeError` from `rlox-vm/src/opcode.rs` lines 80-86. -/
inductive OpDecodeError where
  | unknownOpCode (b : Byte)
  | insufficientBytes (needed available : Nat)
deriving DecidableEq

/-- `impl Encode for OpCode` (`opcode.rs` lines 47-60): the encoder writes
the tag byte plus any operand bytes contiguously; the returned byte count
of the Rust function is the length of this list. -/
def OpCode.encode : OpCode → List Byte
  | .noOp => [0x00]
  | .ret => [0x01]
  | .constant addr => [0x02, addr]
  | .neg => [0x03]
  | .add => [0x04]
  | .sub => [0x05]
  | .mul => [0x06]
  | .div => [0x07]

/-- `impl Decode for OpCode` (`opcode.rs` lines 27-45). The Rust function
takes the whole buffer and asserts it is nonempty; here the first byte
`buf[0]` and the remainder `buf[1..]` are passed separately, so the assert
is a precondition discharged by construction at every call site. -/
def OpCode.decode (first : Byte) (rest : List Byte) :
    Except OpDecodeError (OpCode × Nat) :=
  match first.val, rest with
  | 0x00, _ => .ok (.noOp, 1)
  | 0x01, _ => .ok (.ret, 1)
  | 0x02, a :: _ => .ok (.constant a, 2)
  | 0x02, [] => .error (.insufficientBytes 2 1)
  | 0x03, _ => .ok (.neg, 1)
  | 0x04, _ => .ok (.add, 1)
  | 0x05, _ => .ok (.sub, 1)
  | 0x06, _ => .ok (.mul, 1)
  | 0x07, _ => .ok (.div, 1)
  | _, _ => .error (.unknownOpCode first)

/-- `OpDecoder::decode_op` (`enconding.rs` lines 24-38) at an in-memory
cursor: an empty buffer is end-of-stream (`Ok(None)`); otherwise one opcode
is decoded and the consumed count returned. -/
def decodeOp (buf : List Byte) : Except OpDecodeError (Option (OpCode × Nat)) :=
  match buf with
  | [] => .ok none
  | b :: rest =>
    match OpCode.decode b rest with
    | .error e => .error e
    | .ok (op, n) => .ok (some (op, n))

/-- The fetch-decode loop decoding a byte stream from position 0 to its end
(the disassembler's and the VM's traversal of `chunk.code`): after each
decoded opcode the cursor advances by the consumed count `n ≥ 1`, written
`rest.drop (n - 1)` so the recursion visibly shrinks the buffer. -/
def decodeAll : List Byte → Except OpDecodeError (List OpCode)
  | [] => .ok []
  | b :: rest =>
    match OpCode.decode b rest with
    | .error e => .error e
    | .ok (op, n) =>
      match decodeAll (rest.drop (n - 1)) with
      | .error e => .error e
      | .ok ops => .ok (op :: ops)
termination_by l => l.length
decreasing_by simp [List.length_drop]; omega

/-- `LineInfo` (`rlox-vm/src/debug.rs`): a run-length entry of the line
table; `byte_range : Range<u64>` is split into its two end points. -/
structure LineInfo where
  line : Nat
  byteStart : Nat
  byteEnd : Nat
deriving DecidableEq

/-- `Chunk` from `rlox-vm/src/chunk.rs` lines 10-17. -/
structure Chunk where
  code : List Byte
  constants : List Value
  lines : List LineInfo
  label : Option String
deriving DecidableEq

/-- `Chunk::default()` (derived `Default`). -/
def Chunk.init : Chunk := ⟨[], [], [], none⟩

/-- `Chunk::write` (`chunk.rs` lines 27-31): encode the instruction onto the
end of `code`. -/
def Chunk.write (c : Chunk) (instruction : OpCode) : Chunk :=
  { c with code := c.code ++ instruction.encode }

/-- `Chunk::write_with_line` (`chunk.rs` lines 33-47): write the
instruction, then either extend the last line run (same line) or push a new
`{line, byte_range}` entry. -/
def Chunk.writeWithLine (c : Chunk) (instruction : OpCode) (line : Nat) : Chunk :=
  let startOffset := c.code.length
  let c' := c.write instruction
  let lastByteOffset := c'.code.length
  match c'.lines.getLast? with
  | some li =>
    if li.line = line then
      { c' with lines := c'.lines.dropLast ++ [{ li with byteEnd := lastByteOffset }] }
    else
      { c' with lines := c'.lines ++ [⟨line, startOffset, lastByteOffset⟩] }
  | none => { c' with lines := c'.lines ++ [⟨line, startOffset, lastByteOffset⟩] }

/-- `Chunk::add_constant` (`rlox-vm/src/chunk.rs` lines 59-66, identical in
`rlox-compiler/src/chunk.rs` lines 19-26): asserts
`constants.len() < u8::MAX as usize` (that is, `< 255`; the panic is
modeled as `none`), pushes the value and returns the new index
`constants.len() - 1` as a byte. -/
def Chunk.addConstant (c : Chunk) (value : Value) : Option (Addr × Chunk) :=
  if h : c.constants.length < 255 then
    some (⟨c.constants.length, by omega⟩, { c with constants := c.constants ++ [value] })
  else
    none

/-- `Chunk::write_constant` (`chunk.rs` lines 49-52): add the constant and
write a `Constant` instruction carrying its index (note: through
`Chunk::write`, which does not touch the line table). -/
def Chunk.writeConstant (c : Chunk) (value : Value) : Option Chunk :=
  (c.addConstant value).map (fun p => p.2.write (.constant p.1))

/-- A chunk built by successively emitting opcodes with `Chunk::write`. -/
def Chunk.writeAll (c : Chunk) (ops : List OpCode) : Chunk :=
  ops.foldl Chunk.write c

/-- A chunk built by successive `Chunk::write_with_line` emissions. -/
def Chunk.emitAll (c : Chunk) (ems : List (OpCode × Nat)) : Chunk :=
  ems.foldl (fun ch p => ch.writeWithLine p.1 p.2) c

/-! ### C6: constant-pool limit -/

/-- A chunk whose constant pool already holds 255 constants. -/
def fullChunk : Chunk := ⟨[], List.replicate 255 ⟨1⟩, [], none⟩

theorem fullChunk_len : fullChunk.constants.length = 255 := by
  show (List.replicate 255 (⟨1⟩ : Value)).length = 255
  rw [List.length_replicate]

/-- C6 counterexample: the claim says adding succeeds for every pool of
fewer than 256 constants; but on a pool of 255 constants (fewer than 256)
`add_constant` asserts `len < u8::MAX` = 255 and panics. The real limit is
255 constants, not 256. -/
theorem addConstant_rejects_at_255 :
    fullChunk.addConstant ⟨1⟩ = none ∧ fullChunk.constants.length < 256 := by
  have h : ¬ fullChunk.constants.length < 255 := by rw [fullChunk_len]; omega
  constructor
  · simp [Chunk.addConstant, h]
  · rw [fullChunk_len]; omega

/-- C6 (amended): a chunk's constant pool holds at most 255 constants:
`add_constant` succeeds exactly on pools of fewer than 255 constants,
returning the old pool size as a one-byte index, and panics from 255 on. -/
theorem addConstant_limit (c : Chunk) (v : Value) :
    (c.constants.length < 255 →
      ∃ a c', c.addConstant v = some (a, c') ∧ (a : Nat) = c.constants.length ∧
        c'.constants = c.constants ++ [v])
    ∧ (255 ≤ c.constants.length → c.addConstant v = none) := by
  constructor
  · intro h
    refine ⟨⟨c.constants.length, by omega⟩, { c with constants := c.constants ++ [v] },
      ?_, rfl, rfl⟩
    simp [Chunk.addConstant, h]
  · intro h
    simp [Chunk.addConstant, Nat.not_lt.mpr h]

/-- C6 witness: the amended theorem applied at a fresh chunk (succeeds,
index 0) and at a full chunk (rejected). -/
theorem addConstant_limit_witness :
    (∃ a c', Chunk.init.addConstant ⟨1⟩ = some (a, c') ∧ (a : Nat) = Chunk.init.constants.length ∧
      c'.constants = Chunk.init.constants ++ [⟨1⟩])
    ∧ fullChunk.addConstant ⟨1⟩ = none :=
  ⟨(addConstant_limit Chunk.init ⟨1⟩).1 (by simp [Chunk.init]),
   (addConstant_limit fullChunk ⟨1⟩).2 (by rw [fullChunk_len])⟩

/-! ### C7: bytecode round-trip -/

/-- Decoding right after encoding one opcode yields that opcode and its
byte count, whatever follows in the buffer. -/
theorem decodeOp_encode (o : OpCode) (extra : List Byte) :
    decodeOp (o.encode ++ extra) = .ok (some (o, o.encode.length)) := by
  cases o <;> rfl

/-- One decode step over an encoded opcode peels it off the stream. -/
theorem decodeAll_encode_cons (o : OpCode) (buf : List Byte) :
    decodeAll (o.encode ++ buf)
      = match decodeAll buf with
        | .error e => .error e
        | .ok ops => .ok (o :: ops) := by
  cases o <;> simp [OpCode.encode, decodeAll, OpCode.decode]

/-- The code bytes of a chunk built by successive `write`s are the
concatenated encodings. -/
theorem writeAll_code (c : Chunk) (ops : List OpCode) :
    (c.writeAll ops).code = c.code ++ (ops.map OpCode.encode).flatten := by
  induction ops generalizing c with
  | nil => simp [Chunk.writeAll]
  | cons o rest ih =>
    simp [Chunk.writeAll, List.foldl_cons] at *
    rw [ih (c.write o)]
    simp [Chunk.write]

/-- Decoding a concatenation of encodings, from position 0, restores the
opcode sequence. -/
theorem decodeAll_encodeList (ops : List OpCode) :
    decodeAll (ops.map OpCode.encode).flatten = .ok ops := by
  induction ops with
  | nil => simp [decodeAll]
  | cons o rest ih => rw [List.map_cons, List.flatten_cons, decodeAll_encode_cons, ih]

/-- C7: for every opcode `O` (including `Constant(addr)` for every byte
`addr`, since `Addr = Fin 256`), decoding the bytes produced by encoding
`O` yields exactly `O` with the number of bytes written; and for every
chunk built by successively emitting opcodes, decoding the code bytes from
position 0 yields the same opcode sequence. -/
theorem bytecode_roundtrip (o : OpCode) (extra : List Byte) (ops : List OpCode) :
    decodeOp (o.encode ++ extra) = .ok (some (o, o.encode.length))
    ∧ decodeAll (Chunk.init.writeAll ops).code = .ok ops := by
  refine ⟨decodeOp_encode o extra, ?_⟩
  rw [writeAll_code]
  simpa [Chunk.init] using decodeAll_encodeList ops

/-! ### C8: line-table coverage -/

/-- Every encoding is at least the tag byte. -/
theorem encode_length_pos (o : OpCode) : 1 ≤ o.encode.length := by
  cases o <;> simp [OpCode.encode]

/-- The line runs, read most-recent first, tile the interval `[0, n)`:
the head run ends at `n`, is nonempty, and the remaining runs tile
`[0, head.byteStart)`. -/
def LinesChainRev : List LineInfo → Nat → Prop
  | [], n => n = 0
  | li :: rest, n => li.byteEnd = n ∧ li.byteStart < li.byteEnd ∧ LinesChainRev rest li.byteStart

theorem chainRev_ends_le (rs : List LineInfo) (n : Nat) (h : LinesChainRev rs n) :
    ∀ li ∈ rs, li.byteEnd ≤ n := by
  induction rs generalizing n with
  | nil => simp
  | cons li rest ih =>
    obtain ⟨hEnd, hLt, hChain⟩ := h
    intro li' hmem
    rcases List.mem_cons.mp hmem with h1 | h2
    · subst h1; omega
    · exact le_trans (le_trans (ih _ hChain li' h2) (le_of_lt hLt)) (le_of_eq hEnd)

/-- A run list tiling `[0, n)` covers every offset below `n` exactly once. -/
theorem chainRev_count (rs : List LineInfo) (n : Nat) (h : LinesChainRev rs n)
    (off : Nat) (hoff : off < n) :
    rs.countP (fun li => decide (li.byteStart ≤ off ∧ off < li.byteEnd)) = 1 := by
  induction rs generalizing n with
  | nil => exact absurd hoff (by simp [LinesChainRev] at h; omega)
  | cons li rest ih =>
    obtain ⟨hEnd, hLt, hChain⟩ := h
    rw [List.countP_cons]
    by_cases hcov : li.byteStart ≤ off
    · have hrest : rest.countP (fun li => decide (li.byteStart ≤ off ∧ off < li.byteEnd)) = 0 := by
        rw [List.countP_eq_zero]
        intro li' hmem
        have := chainRev_ends_le rest li.byteStart hChain li' hmem
        simp only [decide_eq_true_eq]
        omega
      rw [hrest]
      simp only [decide_eq_true_eq]
      have : li.byteStart ≤ off ∧ off < li.byteEnd := ⟨hcov, by omega⟩
      simp [this]
    · have hoff' : off < li.byteStart := by omega
      rw [ih li.byteStart hChain hoff']
      simp only [decide_eq_true_eq]
      have : ¬ (li.byteStart ≤ off ∧ off < li.byteEnd) := by omega
      simp [this]

theorem countP_reverse_eq (l : List LineInfo) (p : LineInfo → Bool) :
    l.reverse.countP p = l.countP p := by
  simp [List.countP_eq_length_filter, List.filter_reverse]

/-- One `write_with_line` emission preserves the tiling invariant. -/
theorem writeWithLine_chain (c : Chunk) (op : OpCode) (line : Nat)
    (h : LinesChainRev c.lines.reverse c.code.length) :
    LinesChainRev (c.writeWithLine op line).lines.reverse
      (c.writeWithLine op line).code.length := by
  have hk : 1 ≤ op.encode.length := encode_length_pos op
  rcases List.eq_nil_or_concat c.lines with hnil | ⟨L, b, hcat⟩
  · rw [Chunk.writeWithLine]
    simp only [Chunk.write, hnil]
    rw [hnil] at h
    simp only [List.reverse_nil, LinesChainRev] at h
    simp [LinesChainRev, h, List.length_append]
    omega
  · rw [Chunk.writeWithLine]
    rw [List.concat_eq_append] at hcat
    simp only [Chunk.write, hcat, List.getLast?_concat, List.dropLast_concat]
    rw [hcat] at h
    rw [List.reverse_append, List.reverse_cons, List.reverse_nil, List.nil_append,
      List.singleton_append] at h
    obtain ⟨hEnd, hLt, hChain⟩ := h
    by_cases hline : b.line = line
    · simp only [hline, if_true]
      rw [List.reverse_append, List.reverse_cons, List.reverse_nil, List.nil_append,
        List.singleton_append]
      refine ⟨by simp [List.length_append], by simp [List.length_append]; omega, hChain⟩
    · simp only [hline, if_false]
      rw [List.reverse_append, List.reverse_cons, List.reverse_nil, List.nil_append,
        List.singleton_append]
      refine ⟨by simp [List.length_append], by simp [List.length_append]; omega, ?_⟩
      rw [List.reverse_append, List.reverse_cons, List.reverse_nil, List.nil_append,
        List.singleton_append]
      exact ⟨hEnd, hLt, hChain⟩

/-- Emitting any sequence through `write_with_line` preserves the tiling
invariant. -/
theorem emitAll_chain (ems : List (OpCode × Nat)) :
    ∀ c : Chunk, LinesChainRev c.lines.reverse c.code.length →
      LinesChainRev (c.emitAll ems).lines.reverse (c.emitAll ems).code.length := by
  induction ems with
  | nil => intro c h; exact h
  | cons e rest ih =>
    intro c h
    exact ih (c.writeWithLine e.1 e.2) (writeWithLine_chain c e.1 e.2 h)

/-- C8 (amended): after any sequence of `write_with_line` emissions into a
fresh chunk, every byte offset of the emitted code is covered by exactly
one line run. (Bytes emitted through `write` or `write_constant`, which do
not touch the line table, are covered by no run — see the counterexample.) -/
theorem lineTable_covers (ems : List (OpCode × Nat)) (off : Nat)
    (h : off < (Chunk.init.emitAll ems).code.length) :
    (Chunk.init.emitAll ems).lines.countP
      (fun li => decide (li.byteStart ≤ off ∧ off < li.byteEnd)) = 1 := by
  have chain := emitAll_chain ems Chunk.init (by simp [Chunk.init, LinesChainRev])
  have := chainRev_count _ _ chain off h
  rwa [countP_reverse_eq] at this

/-- C8 witness: a one-instruction emission; offset 0 is covered once. -/
theorem lineTable_covers_witness :
    0 < (Chunk.init.emitAll [(.ret, 1)]).code.length ∧
    (Chunk.init.emitAll [(.ret, 1)]).lines.countP
      (fun li => decide (li.byteStart ≤ 0 ∧ 0 < li.byteEnd)) = 1 :=
  ⟨by decide, lineTable_covers [(.ret, 1)] 0 (by decide)⟩

/-- C8 counterexample: `write_constant` emits two code bytes but appends no
line run, so offset 0 of the emitted code is covered by zero runs,
refuting exactly-one coverage for sequences that use this emission path. -/
theorem writeConstant_uncovered :
    (Chunk.init.writeConstant ⟨1⟩).map
      (fun c => (c.code.length,
        c.lines.countP (fun li => decide (li.byteStart ≤ 0 ∧ 0 < li.byteEnd))))
      = some (2, 0) := rfl

/-! ## Source spans and tokens
Embeds `rlox/src/report/span.rs` and `rlox/src/lexing/tokens.rs`. -/

/-- `Span` (`span.rs` lines 7-13); the source field `end` is a Lean keyword
and is rendered `stop`. Offsets are bytes, lines are 1-based. -/
structure Span where
  start : Nat
  stop : Nat
  lineStart : Nat
  lineEnd : Nat
deriving DecidableEq

/-- `Span::default()` (`span.rs` lines 36-45): zero byte offsets, line 1. -/
def Span.default : Span := ⟨0, 0, 1, 1⟩

/-- `TokenType` (`tokens.rs`): keywords are prefixed with `k` (they are Lean
keywords); `Number` carries its lexeme (the `f64` parse does not matter to
any claim). -/
inductive TokenType where
  | leftParen | rightParen | leftBrace | rightBrace
  | comma | dot | minus | plus | semicolon | slash | star
  | bang | bangEqual | equal | equalEqual
  | greater | greaterEqual | less | lessEqual
  | identifier (name : String)
  | string (contents : String)
  | number (lexeme : String)
  | kand | kclass | kelse | kfalse | kfun | kfor | kif | knil | kor
  | kprint | kreturn | ksuper | kthis | ktrue | kvar | kwhile
  | eof
deriving DecidableEq

/-- `Token` (`tokens.rs` lines 60-63). -/
structure Token where
  ty : TokenType
  span : Span
deriving DecidableEq

/-- The identifier text of a `Variable`/`Assign`/`Var` name token
(`TokenType::ident`, which panics on other variants; the interpreter only
reaches it on identifier tokens). -/
def Token.lexemeName (t : Token) : String :=
  match t.ty with
  | .identifier s => s
  | _ => ""

/-! ## Lexer
Embeds `rlox/src/lexing/scanner.rs` and `rlox/src/lexing/error.rs`.
The source is a `List Char`; spans count bytes via `Char.utf8Size`. -/

/-- `LexingError` (`error.rs` lines 8-13): the line, the source snippet the
span covers, and the message. -/
structure LexingError where
  line : Nat
  span : String
  message : String
deriving DecidableEq

/-- UTF-8 byte size of a character sequence (`str::len` of the lexeme). -/
def utf8Len (cs : List Char) : Nat := (cs.map Char.utf8Size).sum

/-- The keyword table (`scanner.rs` lines 215-235). -/
def keywordLookup (s : String) : Option TokenType :=
  match s with
  | "and" => some .kand
  | "class" => some .kclass
  | "else" => some .kelse
  | "false" => some .kfalse
  | "for" => some .kfor
  | "fun" => some .kfun
  | "if" => some .kif
  | "nil" => some .knil
  | "or" => some .kor
  | "print" => some .kprint
  | "return" => some .kreturn
  | "super" => some .ksuper
  | "this" => some .kthis
  | "true" => some .ktrue
  | "var" => some .kvar
  | "while" => some .kwhile
  | _ => none

/-- What one `scan_token` step produced: a token, nothing (whitespace or a
comment), or a lexing error. -/
inductive ScanOut where
  | tok (t : Token)
  | skip
  | err (e : LexingError)

/-- `Scanner::scan_token` (`scanner.rs` lines 52-149) on the first
character `c` (already consumed by the leading `advance`) and the
remaining characters `rest`. `globalCurr` is the byte offset of `c`,
`line` the current line. Returns what was produced, the extra characters
consumed beyond `c`, and the updated line counter. `make_span` yields
`⟨globalCurr, globalCurr + bytes of the lexeme, line, line⟩` with the line
as it stands when `add_token` runs (after any increments inside string
literals). Rust's `char::is_alphabetic`/`is_alphanumeric` are Unicode-aware
where Lean's `Char.isAlpha`/`Char.isAlphanum` are ASCII; the difference is
invisible to the claims checked here. -/
def scanToken (c : Char) (rest : List Char) (globalCurr line : Nat) :
    ScanOut × List Char × Nat :=
  let simple := fun (t : TokenType) (extra : List Char) =>
    (ScanOut.tok ⟨t, ⟨globalCurr, globalCurr + utf8Len (c :: extra), line, line⟩⟩,
      extra, line)
  match c with
  | '(' => simple .leftParen []
  | ')' => simple .rightParen []
  | '{' => simple .leftBrace []
  | '}' => simple .rightBrace []
  | ',' => simple .comma []
  | '.' => simple .dot []
  | '-' => simple .minus []
  | '+' => simple .plus []
  | ';' => simple .semicolon []
  | '*' => simple .star []
  | '!' =>
    match rest with
    | '=' :: _ => simple .bangEqual ['=']
    | _ => simple .bang []
  | '=' =>
    match rest with
    | '=' :: _ => simple .equalEqual ['=']
    | _ => simple .equal []
  | '<' =>
    match rest with
    | '=' :: _ => simple .lessEqual ['=']
    | _ => simple .less []
  | '>' =>
    match rest with
    | '=' :: _ => simple .greaterEqual ['=']
    | _ => simple .greater []
  | '/' =>
    match rest with
    | '/' :: rest2 =>
      -- line comment: consume through but not past the newline
      (ScanOut.skip, '/' :: rest2.takeWhile (· ≠ '\n'), line)
    | _ => simple .slash []
  | ' ' => (ScanOut.skip, [], line)
  | '\r' => (ScanOut.skip, [], line)
  | '\t' => (ScanOut.skip, [], line)
  | '\n' => (ScanOut.skip, [], line + 1)
  | '"' =>
    let content := rest.takeWhile (· ≠ '"')
    let line' := line + content.count '\n'
    if content.length < rest.length then
      -- the closing quote exists and is consumed
      (ScanOut.tok ⟨.string (String.mk content),
        ⟨globalCurr, globalCurr + utf8Len (c :: (content ++ ['"'])), line', line'⟩⟩,
        content ++ ['"'], line')
    else
      (ScanOut.err ⟨line', String.mk (c :: content), "Unterminated string."⟩,
        content, line')
  | c =>
    if c.isDigit then
      let intPart := rest.takeWhile Char.isDigit
      match rest.drop intPart.length with
      | '.' :: d :: _ =>
        if d.isDigit then
          let frac := ((rest.drop intPart.length).drop 1).takeWhile Char.isDigit
          simple (.number (String.mk (c :: (intPart ++ '.' :: frac))))
            (intPart ++ '.' :: frac)
        else
          simple (.number (String.mk (c :: intPart))) intPart
      | _ => simple (.number (String.mk (c :: intPart))) intPart
    else if c.isAlpha || c = '_' then
      let more := rest.takeWhile (fun ch => ch.isAlphanum || ch = '_')
      let ident := String.mk (c :: more)
      simple ((keywordLookup ident).getD (.identifier ident)) more
    else
      (ScanOut.err ⟨line, String.mk [c], "Unexpected character."⟩, [], line)

/-- The `while !self.source.is_empty()` loop of `Scanner::scan_tokens`
(`scanner.rs` lines 29-36). `fuel` bounds the iteration count so the
recursion is structural; every iteration consumes at least one character,
so `scan_tokens` below always supplies enough. Returns the accumulated
tokens, the accumulated errors, and the final line counter. -/
def scanTokensLoop (fuel : Nat) (src : List Char) (globalCurr line : Nat)
    (tokens : List Token) (errors : List LexingError) :
    List Token × List LexingError × Nat :=
  match fuel, src with
  | _, [] => (tokens, errors, line)
  | 0, _ :: _ => (tokens, errors, line)
  | fuel + 1, c :: rest =>
    let out := scanToken c rest globalCurr line
    let tokens' := match out.1 with | .tok t => tokens ++ [t] | _ => tokens
    let errors' := match out.1 with | .err e => errors ++ [e] | _ => errors
    scanTokensLoop fuel (rest.drop out.2.1.length)
      (globalCurr + utf8Len (c :: out.2.1)) out.2.2 tokens' errors'

/-- `Scanner::scan_tokens` (`scanner.rs` lines 27-50): run the loop; if any
errors were collected return them all; otherwise append the `Eof` token,
whose span is `Span { line_start: line, line_end: line,
..Default::default() }` — byte offsets 0..0 from the default. -/
def scanTokens (source : List Char) : Except (List LexingError) (List Token) :=
  let r := scanTokensLoop (source.length + 1) source 0 1 [] []
  if r.2.1.isEmpty then
    .ok (r.1 ++ [⟨.eof, { Span.default with lineStart := r.2.2, lineEnd := r.2.2 }⟩])
  else
    .error r.2.1

/-! ### C9: the Eof token's span -/

/-- C9 counterexample: on the one-byte source `(`, scanning succeeds and
the final `Eof` token's span has byte offsets 0..0, not 1..1 — so the Eof
span is not located at the source end (byte offsets are not the source
length). It is zero-width and carries the final line. -/
theorem eof_span_not_at_source_end :
    scanTokens ['('] = .ok [⟨.leftParen, ⟨0, 1, 1, 1⟩⟩, ⟨.eof, ⟨0, 0, 1, 1⟩⟩]
    ∧ utf8Len ['('] = 1 ∧ (0 : Nat) ≠ 1 := by
  refine ⟨?_, rfl, by omega⟩
  rfl

/-- C9 (amended): for every source on which scanning succeeds, the returned
token list ends in an `Eof` token whose span is zero-width with byte
offsets 0..0 (the `Span` default) and whose line fields both carry the
scanner's final line counter — not a span located at the source end. -/
theorem scan_ends_with_eof (source : List Char) (tokens : List Token)
    (h : scanTokens source = .ok tokens) :
    tokens.getLast? = some ⟨.eof,
      ⟨0, 0, (scanTokensLoop (source.length + 1) source 0 1 [] []).2.2,
        (scanTokensLoop (source.length + 1) source 0 1 [] []).2.2⟩⟩ := by
  rw [scanTokens] at h
  by_cases he : (scanTokensLoop (source.length + 1) source 0 1 [] []).2.1.isEmpty
  · simp only [he, if_true] at h
    have h' := h.symm
    injection h' with h''
    rw [h'']
    simp [Span.default, List.getLast?_concat]
  · simp [he] at h

/-- C9 witness: the amended theorem applied to the source `(`. -/
theorem scan_ends_with_eof_witness :
    ([⟨.leftParen, ⟨0, 1, 1, 1⟩⟩, ⟨.eof, ⟨0, 0, 1, 1⟩⟩] : List Token).getLast?
      = some ⟨.eof, ⟨0, 0, (scanTokensLoop (1 + 1) ['('] 0 1 [] []).2.2,
        (scanTokensLoop (1 + 1) ['('] 0 1 [] []).2.2⟩⟩ :=
  scan_ends_with_eof ['('] _ (by rfl)

/-! ## Parse errors
Embeds `rlox/src/parsing/error.rs` and the error construction sites of
`rlox/src/parsing/parser.rs`. -/

/-- `ParsingError` (`parsing/error.rs` lines 8-14). -/
structure ParsingError where
  span : Span
  message : String
  shouldSync : Bool
deriving DecidableEq

/-- `ParsingError::custom` (`error.rs` lines 17-23): `should_sync: true`. -/
def ParsingError.custom (token : Token) (message : String) : ParsingError :=
  ⟨token.span, message, true⟩

/-- `ParsingError::custom_no_sync` (`error.rs` lines 25-31):
`should_sync: false`. Defined in the source but called nowhere. -/
def ParsingError.customNoSync (token : Token) (message : String) : ParsingError :=
  ⟨token.span, message, false⟩

/-- `ParsingError::expected` (`error.rs` lines 33-39): `should_sync: true`;
the message interpolates the expectation and the found token. -/
def ParsingError.expected (message : String) (found : Token) : ParsingError :=
  ⟨found.span, message, true⟩

/-- The error built for an invalid assignment target
(`parser.rs` line 338): `ParsingError::custom(equals, "Invalid assignment target.")`. -/
def invalidAssignmentTargetError (equals : Token) : ParsingError :=
  ParsingError.custom equals "Invalid assignment target."

/-- The error built when a function has more than 255 parameters
(`parser.rs` lines 158-163). -/
def tooManyParametersError (tok : Token) : ParsingError :=
  ParsingError.custom tok "Can't have more than 255 parameters."

/-- The error built when a call has more than 255 arguments
(`parser.rs` lines 480-485). -/
def tooManyArgumentsError (tok : Token) : ParsingError :=
  ParsingError.custom tok "Can't have more than 255 arguments."

/-- `Parser::parse` (`parser.rs` lines 112-115) enters panic-mode
synchronization exactly when the error's `should_sync` flag is set. -/
def parserSynchronizesOn (err : ParsingError) : Bool := err.shouldSync

/-- C5 counterexample: the invalid-assignment-target error is built with
`ParsingError::custom`, whose `should_sync` flag is set, so the parser
does synchronize on it — the claim says the flag is unset. -/
theorem invalidAssignment_syncs :
    (invalidAssignmentTargetError ⟨.equal, Span.default⟩).shouldSync = true
    ∧ parserSynchronizesOn (invalidAssignmentTargetError ⟨.equal, Span.default⟩) = true :=
  ⟨rfl, rfl⟩

/-- C5 (amended): the invalid-assignment-target and 255-parameter /
255-argument errors are all built with `ParsingError::custom`, which sets
`should_sync`, so the parser synchronizes on them exactly like on other
parse errors; `custom_no_sync` exists but is used nowhere. -/
theorem arityAndAssignmentErrors_sync (t : Token) :
    (invalidAssignmentTargetError t).shouldSync = true
    ∧ (tooManyParametersError t).shouldSync = true
    ∧ (tooManyArgumentsError t).shouldSync = true
    ∧ parserSynchronizesOn (invalidAssignmentTargetError t) = true
    ∧ (ParsingError.customNoSync t "x").shouldSync = false :=
  ⟨rfl, rfl, rfl, rfl, rfl⟩

/-! ## The value model
Embeds `rlox/src/runtime/object.rs` and the value parts of
`rlox/src/runtime/callable.rs`. `Object` is `Option<Rc<dyn ObjectInternal>>`
with payloads `bool`, `f64`, `String`, `NativeFunction` and `Function`;
here a closed sum. A `Function` holds the `StmtId` of its declaration, its
name, its arity and the `enclosing_env: Environment` snapshot — the
environment is a `Vec` of name→value frames plus the id→depth resolution
table (`rlox/src/runtime/environment.rs` lines 12-16), inlined here as two
lists so that the nesting `Object` → `Function` → `Environment` → `Object`
is a single inductive. -/

/-- Ast node ids (`slotmap` keys, modeled as insertion indices). -/
abbrev ExprId := Nat
abbrev StmtId := Nat

inductive Object where
  | nil
  | boolean (b : Bool)
  | number (n : Rat)
  | str (s : String)
  | native (name : String) (arity : Nat)
  | func (decl : StmtId) (name : String) (arity : Nat)
      (enclosingStack : List (List (String × Object)))
      (enclosingVarRes : List (ExprId × Nat))

/-- One scope frame's map (`ScopedEnvironment.values`,
a `HashMap<Box<str>, Object>` as an association list). -/
abbrev Scope := List (String × Object)

/-- `Object::is_truthy` (`object.rs` lines 107-113): `nil` and `false` are
falsy, everything else truthy. -/
def Object.isTruthy : Object → Bool
  | .nil => false
  | .boolean b => b
  | _ => true

/-- Rust's `bool` ordering: `false < true`. -/
def boolCmp : Bool → Bool → Ordering
  | false, true => .lt
  | true, false => .gt
  | _, _ => .eq

/-- `f64::partial_cmp` on the `Rat` model (total here; the `None` case of
`f64` arises only for NaN, which `Rat` cannot represent). -/
def ratCmp (x y : Rat) : Ordering :=
  if x < y then .lt else if x = y then .eq else .gt

/-- `PartialOrd for Object` (`object.rs` lines 199-206) together with the
`ObjPartialOrd` dispatch (lines 63-71): `nil` on either side is `None`;
otherwise the right payload is downcast to the left payload's type
(failure is `None`) and compared with that type's `partial_cmp` —
lexicographic for `String`, `false < true` for `bool`, numeric for `f64`,
and always `None` for `NativeFunction` and `Function` (`callable.rs`
lines 151-155 and 178-182). -/
def Object.pcmp : Object → Object → Option Ordering
  | .nil, _ => none
  | _, .nil => none
  | .boolean x, .boolean y => some (boolCmp x y)
  | .number x, .number y => some (ratCmp x y)
  | .str x, .str y => some (compare x y)
  | .native _ _, .native _ _ => none
  | .func _ _ _ _ _, .func _ _ _ _ _ => none
  | _, _ => none

/-- Rust's derived `<` on `PartialOrd`: `partial_cmp == Some(Less)`. -/
def Object.plt (a b : Object) : Bool := a.pcmp b = some .lt

/-- Rust's derived `<=`: `matches!(partial_cmp, Some(Less | Equal))`. -/
def Object.ple (a b : Object) : Bool :=
  match a.pcmp b with
  | some .lt => true
  | some .eq => true
  | _ => false

/-- Rust's derived `>`: `partial_cmp == Some(Greater)`. -/
def Object.pgt (a b : Object) : Bool := a.pcmp b = some .gt

/-- Rust's derived `>=`: `matches!(partial_cmp, Some(Greater | Equal))`. -/
def Object.pge (a b : Object) : Bool :=
  match a.pcmp b with
  | some .gt => true
  | some .eq => true
  | _ => false

/-- `PartialEq for Object` (`object.rs` lines 189-197) with the
`ObjPartialEq` dispatch: `nil == nil`; same-payload-type value equality;
everything else `false`. `NativeFunction` equality is pointer equality of
the boxed closure — distinct built-ins never compare equal, and there is
only one (`clock`); modeled as name equality. `Function` equality is name
equality (`callable.rs` lines 172-176). -/
def Object.oeq : Object → Object → Bool
  | .nil, .nil => true
  | .boolean x, .boolean y => x == y
  | .number x, .number y => x == y
  | .str x, .str y => x == y
  | .native nx _, .native ny _ => nx == ny
  | .func _ nx _ _ _, .func _ ny _ _ _ => nx == ny
  | _, _ => false

/-- `OpError` (`object.rs` lines 239-243). -/
inductive OpError where
  | invalidOperand (msg : String)

/-- `Add for Object` (`object.rs` lines 126-141): two numbers add, two
strings concatenate, anything else is an invalid-operand error. -/
def Object.objAdd : Object → Object → Except OpError Object
  | .number x, .number y => .ok (.number (x + y))
  | .str x, .str y => .ok (.str (x ++ y))
  | _, _ => .error (.invalidOperand "Objects not both String or f64")

/-- `Sub for Object` (`object.rs` lines 143-151). -/
def Object.objSub : Object → Object → Except OpError Object
  | .number x, .number y => .ok (.number (x - y))
  | _, _ => .error (.invalidOperand "Object is not of type f64")

/-- `Mul for Object` (`object.rs` lines 153-161). -/
def Object.objMul : Object → Object → Except OpError Object
  | .number x, .number y => .ok (.number (x * y))
  | _, _ => .error (.invalidOperand "Object is not of type f64")

/-- `Div for Object` (`object.rs` lines 163-171). Division is the `Rat`
one; `f64`'s division by zero yields ±infinity, which no claim exercises. -/
def Object.objDiv : Object → Object → Except OpError Object
  | .number x, .number y => .ok (.number (x / y))
  | _, _ => .error (.invalidOperand "Object is not of type f64")

/-- `RuntimeError` and the panics of the evaluator. Spans that only feed
messages are replaced by the tokens they come from; `internal` models the
`panic!`/`unreachable!` arms. -/
inductive RuntimeErr where
  | withToken (t : Token) (message : String)
  | undefined (t : Token)
  | notCallable
  | arity (expected found : Nat)
  | invalidBreakOrContinue
  | invalidReturn
  | internal (msg : String)

/-- The operator dispatch of `visit_binary` (`interpreter.rs` lines
123-145) on already-evaluated operands: arithmetic through the `Object`
operator impls (errors wrapped by `RuntimeError::with_token`), comparisons
through the derived `PartialOrd` operators — which never raise — and
equality through `PartialEq`; any other token is the `panic!` arm. -/
def binaryOpResult (op : Token) (left right : Object) : Except RuntimeErr Object :=
  match op.ty with
  | .plus =>
    match left.objAdd right with
    | .ok v => .ok v
    | .error (.invalidOperand m) => .error (.withToken op m)
  | .minus =>
    match left.objSub right with
    | .ok v => .ok v
    | .error (.invalidOperand m) => .error (.withToken op m)
  | .star =>
    match left.objMul right with
    | .ok v => .ok v
    | .error (.invalidOperand m) => .error (.withToken op m)
  | .slash =>
    match left.objDiv right with
    | .ok v => .ok v
    | .error (.invalidOperand m) => .error (.withToken op m)
  | .greater => .ok (.boolean (left.pgt right))
  | .greaterEqual => .ok (.boolean (left.pge right))
  | .less => .ok (.boolean (left.plt right))
  | .lessEqual => .ok (.boolean (left.ple right))
  | .equalEqual => .ok (.boolean (left.oeq right))
  | .bangEqual => .ok (.boolean (!left.oeq right))
  | _ => .error (.internal "Unexpected binary operator")

/-! ### C4: comparisons on non-Number operands -/

/-- Whether the two payloads are of the same primitive comparable type:
both booleans, both numbers, or both strings. Exactly these pairings have
a working `partial_cmp` downcast with a non-`None` order. -/
def Object.comparableSameKind : Object → Object → Bool
  | .boolean _, .boolean _ => true
  | .number _, .number _ => true
  | .str _, .str _ => true
  | _, _ => false

/-- C4 counterexample: both operands are Strings — neither is a Number —
yet `"a" < "b"` evaluates to `true`, not the claimed `false`: Rust's
`String: PartialOrd` compares lexicographically through the downcast
dispatch, so same-type non-Number comparisons are not "incomparable". -/
theorem string_comparison_not_false :
    binaryOpResult ⟨.less, Span.default⟩ (.str "a") (.str "b") = .ok (.boolean true)
    ∧ (Object.str "a").pcmp (.str "b") = some .lt := by
  constructor <;> rfl

/-- C4 (amended): for operand pairs that are not two Booleans, not two
Numbers and not two Strings — i.e. mismatched payload types, `nil` on
either side, or two function values — all four comparisons succeed
(no runtime error) and return the Boolean `false`. Two Strings compare
lexicographically and two Booleans by `false < true`, so the original
blanket "non-Number ⇒ false" fails only there. -/
theorem comparisons_false_on_incomparable (l r : Object) (sp : Span)
    (h : Object.comparableSameKind l r = false) :
    binaryOpResult ⟨.less, sp⟩ l r = .ok (.boolean false)
    ∧ binaryOpResult ⟨.lessEqual, sp⟩ l r = .ok (.boolean false)
    ∧ binaryOpResult ⟨.greater, sp⟩ l r = .ok (.boolean false)
    ∧ binaryOpResult ⟨.greaterEqual, sp⟩ l r = .ok (.boolean false) := by
  have hnone : l.pcmp r = none := by
    cases l <;> cases r <;> simp_all [Object.comparableSameKind, Object.pcmp]
  refine ⟨?_, ?_, ?_, ?_⟩ <;>
    simp [binaryOpResult, Object.plt, Object.ple, Object.pgt, Object.pge, hnone]

/-- C4 witness: the amended theorem at `nil < true` (and the other three
operators), which all yield `false`. -/
theorem comparisons_false_witness :
    binaryOpResult ⟨.less, Span.default⟩ .nil (.boolean true) = .ok (.boolean false) :=
  (comparisons_false_on_incomparable .nil (.boolean true) Span.default (by rfl)).1

/-! ## Environment
Embeds `rlox/src/runtime/environment.rs`: a `Vec` of scope frames (index 0
is the global frame, the last entry the innermost), plus the resolver's
`ExprId → depth` side table. -/

/-- `ScopedEnvironment::get` (`environment.rs` lines 103-105). -/
def Scope.get (s : Scope) (name : String) : Option Object :=
  (s.find? (fun p => p.1 == name)).map (fun p => p.2)

/-- `ScopedEnvironment::define` (`environment.rs` lines 99-101):
`HashMap::insert`, replacing any existing binding. -/
def Scope.define (s : Scope) (name : String) (o : Object) : Scope :=
  (name, o) :: s.filter (fun p => p.1 != name)

/-- `ScopedEnvironment::assign` (`environment.rs` lines 107-112):
update the binding in place if the key is present (returning the assigned
object in Rust), else `None`. -/
def Scope.assign (s : Scope) (name : String) (o : Object) : Option Scope :=
  if s.any (fun p => p.1 == name) then
    some (s.map (fun p => if p.1 == name then (name, o) else p))
  else
    none

/-- `Environment` (`environment.rs` lines 12-16). -/
structure Environment where
  stack : List Scope
  varResolution : List (ExprId × Nat)

/-- `Environment::new` (lines 19-26): one global scope. -/
def Environment.new : Environment := ⟨[[]], []⟩

/-- `Environment::push_scope` (lines 28-30): `Vec::push`. -/
def Environment.pushScope (e : Environment) : Environment :=
  { e with stack := e.stack ++ [[]] }

/-- `Environment::pop_scope` (lines 32-34): `Vec::pop`. -/
def Environment.popScope (e : Environment) : Environment :=
  { e with stack := e.stack.dropLast }

/-- `Environment::define` (lines 36-38): insert into the current (last)
frame. The `expect` on an empty stack cannot fire (the global frame is
never popped); an empty stack is left unchanged here. -/
def Environment.define (e : Environment) (name : String) (o : Object) : Environment :=
  match e.stack.getLast? with
  | some s => { e with stack := e.stack.dropLast ++ [s.define name o] }
  | none => e

/-- `Environment::define_global` (lines 40-42): insert into the root frame. -/
def Environment.defineGlobal (e : Environment) (name : String) (o : Object) : Environment :=
  match e.stack with
  | s :: rest => { e with stack := s.define name o :: rest }
  | [] => e

/-- `Environment::resolve_var` (lines 70-72): `HashMap::insert` into the
side table. -/
def Environment.resolveVar (e : Environment) (exprId : ExprId) (depth : Nat) : Environment :=
  { e with varResolution := (exprId, depth) :: e.varResolution.filter (fun p => p.1 != exprId) }

/-- `Environment::get` (lines 44-53): look up the recorded depth of the
reference (no record ⇒ `None`), then search the slice
`stack[..= stack_len - depth - 1]` — the first `stack_len - depth` frames —
in reverse, returning the first hit. Rust underflows (panics) when
`depth ≥ stack_len`; the theorems below assume `depth < stack_len`, where
`take` coincides with the Rust slice. -/
def Environment.get (e : Environment) (exprId : ExprId) (name : String) : Option Object :=
  match e.varResolution.find? (fun p => p.1 == exprId) with
  | none => none
  | some (_, depth) =>
    ((e.stack.take (e.stack.length - depth)).reverse).findSome? (fun s => s.get name)

/-- `EnvError` (lines 115-119). -/
inductive EnvError where
  | undefinedVar (name : String)

/-- The `iter_mut().rev().find_map(|s| s.assign(..))` of
`Environment::assign`: update the first frame (in the given order) whose
map contains the name. -/
def assignFirst (frames : List Scope) (name : String) (o : Object) : Option (List Scope) :=
  match frames with
  | [] => none
  | s :: rest =>
    match s.assign name o with
    | some s' => some (s' :: rest)
    | none => (assignFirst rest name o).map (fun r => s :: r)

/-- `Environment::assign` (lines 55-68): same slice as `get`, searched in
reverse with the first containing frame updated; the assigned object is
returned on success and `UndefinedVar` reported otherwise. Mirroring the
`&mut self` receiver, the (possibly unchanged) environment is always
returned alongside the result. -/
def Environment.assign (e : Environment) (exprId : ExprId) (name : String) (o : Object) :
    Except EnvError Object × Environment :=
  match e.varResolution.find? (fun p => p.1 == exprId) with
  | none => (.error (.undefinedVar name), e)
  | some (_, depth) =>
    let pre := e.stack.take (e.stack.length - depth)
    let post := e.stack.drop (e.stack.length - depth)
    match assignFirst pre.reverse name o with
    | some newRev => (.ok o, { e with stack := newRev.reverse ++ post })
    | none => (.error (.undefinedVar name), e)

/-! ### Helper lemmas for the environment-search characterizations -/

/-- Index characterization of `findSome?`: it returns `some b` exactly when
some position holds a hit and every earlier position misses. -/
theorem findSome?_idx_some {α β : Type _} (f : α → Option β) (l : List α) (b : β) :
    l.findSome? f = some b ↔
      ∃ (j : Nat) (a : α), l[j]? = some a ∧ f a = some b ∧
        ∀ (k : Nat), k < j → ∀ (a' : α), l[k]? = some a' → f a' = none := by
  induction l with
  | nil => simp
  | cons x xs ih =>
    rw [List.findSome?_cons]
    cases hfx : f x with
    | some v =>
      constructor
      · intro h
        refine ⟨0, x, by simp, ?_, ?_⟩
        · rw [hfx]; exact h
        · intro k hk; omega
      · rintro ⟨j, a, hga, hfa, hmin⟩
        match j with
        | 0 =>
          simp only [List.getElem?_cons_zero, Option.some.injEq] at hga
          rw [← hga, hfx] at hfa
          exact hfa
        | j + 1 =>
          have := hmin 0 (by omega) x (by simp)
          rw [hfx] at this
          exact absurd this (by simp)
    | none =>
      rw [ih]
      constructor
      · rintro ⟨j, a, hga, hfa, hmin⟩
        refine ⟨j + 1, a, by simpa using hga, hfa, ?_⟩
        intro k hk a' hga'
        match k with
        | 0 =>
          simp only [List.getElem?_cons_zero, Option.some.injEq] at hga'
          rw [← hga']; exact hfx
        | k + 1 =>
          exact hmin k (by omega) a' (by simpa using hga')
      · rintro ⟨j, a, hga, hfa, hmin⟩
        match j with
        | 0 =>
          simp only [List.getElem?_cons_zero, Option.some.injEq] at hga
          rw [← hga, hfx] at hfa
          exact absurd hfa (by simp)
        | j + 1 =>
          refine ⟨j, a, by simpa using hga, hfa, ?_⟩
          intro k hk a' hga'
          exact hmin (k + 1) (by omega) a' (by simpa using hga')

/-- `find_map` misses exactly when every element misses, stated by index. -/
theorem findSome?_idx_none {α β : Type _} (f : α → Option β) (l : List α) :
    l.findSome? f = none ↔ ∀ (j : Nat) (a : α), l[j]? = some a → f a = none := by
  rw [List.findSome?_eq_none_iff]
  constructor
  · intro h j a hja
    exact h a (List.mem_iff_getElem?.mpr ⟨j, hja⟩)
  · intro h a ha
    obtain ⟨j, hj⟩ := List.getElem?_of_mem ha
    exact h j a hj

/-- `Scope.assign` fails exactly when the name is absent from the frame. -/
theorem scope_assign_none_iff (s : Scope) (name : String) (o : Object) :
    s.assign name o = none ↔ s.get name = none := by
  rw [Scope.assign, Scope.get]
  by_cases hc : s.any (fun p => p.1 == name) = true
  · rw [if_pos hc]
    constructor
    · intro h; cases h
    · intro h
      exfalso
      obtain ⟨p, hp, hpe⟩ := List.any_eq_true.mp hc
      have := List.find?_eq_none.mp (Option.map_eq_none'.mp h) p hp
      exact this hpe
  · rw [if_neg hc]
    constructor
    · intro _
      rw [Option.map_eq_none', List.find?_eq_none]
      intro x hx hpe
      exact hc (List.any_eq_true.mpr ⟨x, hx, hpe⟩)
    · intro _; rfl

/-- A successful `Scope.assign` leaves the assigned value readable. -/
theorem scope_assign_get (s s' : Scope) (name : String) (o : Object)
    (h : s.assign name o = some s') : s'.get name = some o := by
  rw [Scope.assign] at h
  by_cases hc : s.any (fun p => p.1 == name) = true
  · rw [if_pos hc] at h
    injection h with h
    subst h
    rw [Scope.get]
    induction s with
    | nil => simp at hc
    | cons q qs ih =>
      by_cases hq : (q.1 == name) = true
      · have hqe : q.1 = name := by simpa using hq
        simp [List.find?_cons, List.find?_map, hqe]
      · have hc' : qs.any (fun p => p.1 == name) = true := by
          obtain ⟨p, hp, hpe⟩ := List.any_eq_true.mp hc
          rcases List.mem_cons.mp hp with h1 | h2
          · subst h1; exact absurd hpe hq
          · exact List.any_eq_true.mpr ⟨p, h2, hpe⟩
        have hqe : ¬ (q.1 = name) := by simpa using hq
        simpa [List.find?_cons, List.find?_map, hqe] using ih hc'
  · rw [if_neg hc] at h
    cases h

/-- `assignFirst` fails exactly when every searched frame misses the name. -/
theorem assignFirst_none_iff (frames : List Scope) (name : String) (o : Object) :
    assignFirst frames name o = none ↔ ∀ s ∈ frames, s.get name = none := by
  induction frames with
  | nil => simp [assignFirst]
  | cons s rest ih =>
    rw [assignFirst]
    cases hs : s.assign name o with
    | some s' =>
      simp only [List.mem_cons]
      constructor
      · intro h; cases h
      · intro h
        have := (scope_assign_none_iff s name o).mpr (h s (Or.inl rfl))
        rw [hs] at this; cases this
    | none =>
      simp only [Option.map_eq_none', ih, List.mem_cons]
      constructor
      · intro h x hx
        rcases hx with h1 | h2
        · subst h1; exact (scope_assign_none_iff x name o).mp hs
        · exact h x h2
      · intro h x hx
        exact h x (Or.inr hx)

/-- `assignFirst` preserves the number of frames. -/
theorem assignFirst_length (frames r : List Scope) (name : String) (o : Object)
    (h : assignFirst frames name o = some r) : r.length = frames.length := by
  induction frames generalizing r with
  | nil => simp [assignFirst] at h
  | cons s rest ih =>
    rw [assignFirst] at h
    cases hs : s.assign name o with
    | some s' =>
      rw [hs] at h
      simp only [Option.some.injEq] at h
      subst h
      simp
    | none =>
      rw [hs] at h
      simp only [Option.map_eq_some'] at h
      obtain ⟨r', hr', hrr⟩ := h
      subst hrr
      simp [ih r' hr']

/-- After a successful `assignFirst`, the first hit in the updated frames
yields the assigned value. -/
theorem assignFirst_get (frames r : List Scope) (name : String) (o : Object)
    (h : assignFirst frames name o = some r) :
    r.findSome? (fun s => s.get name) = some o := by
  induction frames generalizing r with
  | nil => simp [assignFirst] at h
  | cons s rest ih =>
    rw [assignFirst] at h
    cases hs : s.assign name o with
    | some s' =>
      rw [hs] at h
      simp only [Option.some.injEq] at h
      subst h
      rw [List.findSome?_cons, scope_assign_get s s' name o hs]
    | none =>
      rw [hs] at h
      simp only [Option.map_eq_some'] at h
      obtain ⟨r', hr', hrr⟩ := h
      subst hrr
      rw [List.findSome?_cons]
      rw [(scope_assign_none_iff s name o).mp hs]
      exact ih r' hr'

/-! ### C3 and C10: depth-indexed lookup and assignment -/

/-- The frame `j` hops up from the current frame (`j = 0` is the innermost
frame, `j = stack.length - 1` the global frame). -/
def frameAtHops (stack : List Scope) (j : Nat) : Option Scope := stack.reverse[j]?

/-- The slice `stack[..= len - depth - 1]`, reversed for the search, is the
frame `depth` hops up followed by its enclosing frames out to the root. -/
theorem searched_eq_drop (stack : List Scope) (depth : Nat) (hd : depth < stack.length) :
    (stack.take (stack.length - depth)).reverse = stack.reverse.drop depth := by
  rw [List.reverse_take]
  congr 1
  omega

/-- Transfers "every searched frame satisfies P" between slice indexing and
hops-from-innermost indexing. -/
theorem hops_translate (stack : List Scope) (depth : Nat) (P : Scope → Prop) :
    (∀ (i : Nat) (s : Scope), (stack.reverse.drop depth)[i]? = some s → P s) ↔
    (∀ (j : Nat) (s : Scope), depth ≤ j → frameAtHops stack j = some s → P s) := by
  constructor
  · intro h j s hj hjs
    refine h (j - depth) s ?_
    rw [List.getElem?_drop]
    rw [frameAtHops] at hjs
    have : depth + (j - depth) = j := by omega
    rw [this]
    exact hjs
  · intro h i s his
    rw [List.getElem?_drop] at his
    exact h (depth + i) s (by omega) his

/-- C3 (amended): for a reference with recorded depth `d` (and `d` within
the stack), `get` does not read only the frame `d` hops up: it searches
that frame and then every enclosing frame out to the global one, returning
the first hit; it fails exactly when the name is missing from all frames
from `d` hops up outward — not "whenever the name is missing from that
specific frame". `assign` walks the same frames and reports
an undefined-variable error exactly under the same all-miss condition. -/
theorem env_lookup_searches_outward (e : Environment) (id : ExprId) (name : String)
    (o : Object) (k : ExprId) (depth : Nat)
    (hres : e.varResolution.find? (fun p => p.1 == id) = some (k, depth))
    (hd : depth < e.stack.length) :
    (∀ v, e.get id name = some v ↔
      ∃ (j : Nat), depth ≤ j ∧ (∃ s, frameAtHops e.stack j = some s ∧ s.get name = some v) ∧
        ∀ (k' : Nat), depth ≤ k' → k' < j →
          ∀ (s : Scope), frameAtHops e.stack k' = some s → s.get name = none)
    ∧ (e.get id name = none ↔
        ∀ (j : Nat) (s : Scope), depth ≤ j → frameAtHops e.stack j = some s →
          s.get name = none)
    ∧ ((e.assign id name o).1 = .error (.undefinedVar name) ↔
        ∀ (j : Nat) (s : Scope), depth ≤ j → frameAtHops e.stack j = some s →
          s.get name = none) := by
  have hsr := searched_eq_drop e.stack depth hd
  have hget : e.get id name
      = ((e.stack.take (e.stack.length - depth)).reverse).findSome? (fun s => s.get name) := by
    rw [Environment.get, hres]
  have hassign : e.assign id name o
      = (match assignFirst ((e.stack.take (e.stack.length - depth)).reverse) name o with
         | some newRev =>
            (.ok o, { e with stack := newRev.reverse ++ (e.stack.drop (e.stack.length - depth)) })
         | none => (.error (.undefinedVar name), e)) := by
    rw [Environment.assign, hres]
  refine ⟨?_, ?_, ?_⟩
  · intro v
    rw [hget, hsr, findSome?_idx_some]
    constructor
    · rintro ⟨i, s, his, hgs, hmin⟩
      rw [List.getElem?_drop] at his
      refine ⟨depth + i, by omega, ⟨s, his, hgs⟩, ?_⟩
      intro k' hk1 hk2 s' hs'
      refine hmin (k' - depth) (by omega) s' ?_
      rw [List.getElem?_drop]
      rw [frameAtHops] at hs'
      have : depth + (k' - depth) = k' := by omega
      rw [this]
      exact hs'
    · rintro ⟨j, hj, ⟨s, hjs, hgs⟩, hmin⟩
      refine ⟨j - depth, s, ?_, hgs, ?_⟩
      · rw [List.getElem?_drop]
        rw [frameAtHops] at hjs
        have : depth + (j - depth) = j := by omega
        rw [this]
        exact hjs
      · intro i hi s' his
        rw [List.getElem?_drop] at his
        exact hmin (depth + i) (by omega) (by omega) s' his
  · rw [hget, hsr, findSome?_idx_none]
    exact hops_translate e.stack depth (fun s => s.get name = none)
  · rw [hassign]
    cases haf : assignFirst ((e.stack.take (e.stack.length - depth)).reverse) name o with
    | some r =>
      constructor
      · intro h; cases h
      · intro h
        exfalso
        have hall : ∀ s ∈ (e.stack.take (e.stack.length - depth)).reverse,
            s.get name = none := by
          rw [hsr]
          intro s hs
          obtain ⟨i, hi⟩ := List.getElem?_of_mem hs
          rw [List.getElem?_drop] at hi
          exact h (depth + i) s (by omega) hi
        have hnone := (assignFirst_none_iff _ name o).mpr hall
        rw [haf] at hnone
        cases hnone
    | none =>
      constructor
      · intro _
        have hall := (assignFirst_none_iff _ name o).mp haf
        rw [hsr] at hall
        intro j s hj hjs
        refine (hops_translate e.stack depth (fun s => s.get name = none)).mp ?_ j s hj hjs
        intro i s' his
        exact hall s' (List.mem_iff_getElem?.mpr ⟨i, his⟩)
      · intro _; rfl

/-- C3 counterexample: a two-frame environment whose global frame binds `x`
and whose innermost frame is empty, with depth 0 recorded for the
reference. The frame 0 hops up is missing the name — the claim says the
lookup must fail — but `get` continues outward and returns the global
binding. -/
def skipEnv : Environment := ⟨[[("x", Object.number 1)], []], [(0, 0)]⟩

theorem env_get_searches_past_depth_frame :
    Environment.get skipEnv 0 "x" = some (Object.number 1)
    ∧ frameAtHops skipEnv.stack 0 = some []
    ∧ Scope.get [] "x" = none :=
  ⟨rfl, rfl, rfl⟩

/-- C3 witness: the amended characterization applied to `skipEnv` at its
recorded depth 0 (hypotheses discharged concretely). -/
theorem env_lookup_searches_outward_witness :
    Environment.get skipEnv 0 "x" = some (Object.number 1) ↔
      ∃ (j : Nat), 0 ≤ j ∧ (∃ s, frameAtHops skipEnv.stack j = some s ∧
          s.get "x" = some (Object.number 1)) ∧
        ∀ (k' : Nat), 0 ≤ k' → k' < j →
          ∀ (s : Scope), frameAtHops skipEnv.stack k' = some s → s.get "x" = none :=
  (env_lookup_searches_outward skipEnv 0 "x" (Object.number 1) 0 0 rfl
    (by simp [skipEnv])).1 (Object.number 1)

/-- C10 (amended): an assignment stores the value and evaluates to it only
when the expression id has a recorded depth `d` (within the stack) and the
target name is bound in one of the frames from `d` hops up outward to the
global frame; then the assigned value is what the first such frame
thereafter yields. When the id has no recorded depth, or the name is bound
in no searched frame (even if bound in a skipped inner frame), `assign`
reports an undefined-variable error and leaves the environment unchanged.
`visit_assign` (`interpreter.rs` lines 204-211) forwards this result as the
assignment expression's value or error. -/
theorem assign_at_depth (e : Environment) (id : ExprId) (name : String) (o : Object) :
    (e.varResolution.find? (fun p => p.1 == id) = none →
      e.assign id name o = (.error (.undefinedVar name), e))
    ∧ (∀ (k : ExprId) (depth : Nat),
        e.varResolution.find? (fun p => p.1 == id) = some (k, depth) →
        depth < e.stack.length →
        ((∃ (j : Nat) (s : Scope), depth ≤ j ∧ frameAtHops e.stack j = some s ∧
            s.get name ≠ none) →
          ∃ e', e.assign id name o = (.ok o, e') ∧
            ((e'.stack.take (e'.stack.length - depth)).reverse).findSome?
              (fun s => s.get name) = some o)
        ∧ ((∀ (j : Nat) (s : Scope), depth ≤ j → frameAtHops e.stack j = some s →
            s.get name = none) →
          e.assign id name o = (.error (.undefinedVar name), e))) := by
  constructor
  · intro hnone
    rw [Environment.assign, hnone]
  · intro k depth hres hd
    have hsr := searched_eq_drop e.stack depth hd
    have hassign : e.assign id name o
        = (match assignFirst ((e.stack.take (e.stack.length - depth)).reverse) name o with
           | some newRev =>
              (.ok o, { e with stack := newRev.reverse ++ (e.stack.drop (e.stack.length - depth)) })
           | none => (.error (.undefinedVar name), e)) := by
      rw [Environment.assign, hres]
    have hlen : ((e.stack.take (e.stack.length - depth)).reverse).length
        = e.stack.length - depth := by
      simp [List.length_reverse, List.length_take]
    constructor
    · rintro ⟨j, s, hj, hjs, hget⟩
      cases haf : assignFirst ((e.stack.take (e.stack.length - depth)).reverse) name o with
      | none =>
        exfalso
        have hall := (assignFirst_none_iff _ name o).mp haf
        rw [frameAtHops] at hjs
        refine hget (hall s ?_)
        rw [hsr]
        refine List.mem_iff_getElem?.mpr ⟨j - depth, ?_⟩
        rw [List.getElem?_drop]
        have : depth + (j - depth) = j := by omega
        rw [this]
        exact hjs
      | some r =>
        refine ⟨{ e with stack := r.reverse ++ (e.stack.drop (e.stack.length - depth)) },
          by rw [hassign, haf], ?_⟩
        have hrlen : r.length = e.stack.length - depth := by
          rw [assignFirst_length _ _ name o haf, hlen]
        have hstlen : (r.reverse ++ (e.stack.drop (e.stack.length - depth))).length
            = e.stack.length := by
          simp [List.length_append, List.length_reverse, List.length_drop, hrlen]
        have htake : ((r.reverse ++ (e.stack.drop (e.stack.length - depth))).take
            ((r.reverse ++ (e.stack.drop (e.stack.length - depth))).length - depth))
            = r.reverse := by
          rw [hstlen]
          have : e.stack.length - depth = r.reverse.length := by
            simp [List.length_reverse, hrlen]
          rw [this, List.take_left]
        simp only [htake, List.reverse_reverse]
        exact assignFirst_get _ r name o haf
    · intro h
      have hall : ∀ s ∈ (e.stack.take (e.stack.length - depth)).reverse,
          s.get name = none := by
        rw [hsr]
        intro s hs
        obtain ⟨i, hi⟩ := List.getElem?_of_mem hs
        rw [List.getElem?_drop] at hi
        exact h (depth + i) s (by omega) hi
      rw [hassign, (assignFirst_none_iff _ name o).mpr hall]

/-- C10 counterexample: a two-frame environment where `x` is bound only in
the innermost frame but the reference's recorded depth is 1 (the global
frame). The target name is defined in the environment chain, yet `assign`
searches only from depth 1 outward, misses it, leaves the environment
unchanged and reports an undefined-variable error — the claim says the
store must succeed. -/
def innerBoundEnv : Environment := ⟨[[], [("x", Object.number 1)]], [(0, 1)]⟩

theorem assign_misses_inner_binding :
    Environment.assign innerBoundEnv 0 "x" (Object.number 5)
      = (.error (.undefinedVar "x"), innerBoundEnv)
    ∧ innerBoundEnv.stack.any (fun s => s.any (fun p => p.1 == "x")) = true :=
  ⟨rfl, rfl⟩

/-- C10 witness: the amended theorem at a one-frame environment with `x`
bound at the recorded depth 0 — the store succeeds, returns the assigned
value, and the value is subsequently readable. -/
theorem assign_at_depth_witness :
    ∃ e', Environment.assign ⟨[[("x", Object.number 1)]], [(0, 0)]⟩ 0 "x" (Object.number 5)
        = (.ok (Object.number 5), e')
      ∧ ((e'.stack.take (e'.stack.length - 0)).reverse).findSome?
          (fun s => s.get "x") = some (Object.number 5) :=
  ((assign_at_depth ⟨[[("x", Object.number 1)]], [(0, 0)]⟩ 0 "x" (Object.number 5)).2
    0 0 rfl (by simp)).1
    ⟨0, [("x", Object.number 1)], by omega, rfl, by simp [Scope.get, List.find?_cons]⟩

/-! ## AST
Embeds `rlox/src/parsing/expr.rs`, `stmt.rs` and `ast.rs`. The slotmap
arena is modeled as two insert-only lists with ids as insertion indices
(the arena is never removed-from). Children are ids, as in the source. -/

inductive Expr where
  | binaryE (op : Token) (left right : ExprId)
  | callE (callee : ExprId) (rParen : Token) (args : List ExprId)
  | groupingE (inner : ExprId)
  | literalE (token : Token) (value : Object)
  | unaryE (op : Token) (right : ExprId)
  | varE (name : Token)
  | assignE (name : Token) (value : ExprId)
  | logicalE (op : Token) (left right : ExprId)

inductive Stmt where
  | printS (printToken : Token) (expr : ExprId)
  | exprS (expr : ExprId)
  | varS (ident : Token) (initializer : Option ExprId)
  | blockS (statements : List StmtId)
  | ifS (condition : ExprId) (thenBranch : StmtId) (elseBranch : Option StmtId)
  | returnS (returnToken : Token) (expr : Option ExprId)
  | whileS (condition : ExprId) (body : StmtId)
  | funcS (name : Token) (params : List Token) (body : List StmtId)

structure AstArena where
  expressions : List Expr
  statements : List Stmt

/-! ## Resolver
Embeds `rlox/src/passes/resolver.rs`. The scope stack is a `Vec` of name
sets (index 0 the global resolver scope, the last entry the innermost);
the recorded `(ExprId, depth)` pairs land in the interpreter environment's
`var_resolution` table. `fuel` bounds the AST recursion. -/

/-- The iterator chain of `Resolver::resolve_local` (lines 50-62) over the
already-reversed stack: index of the first scope containing the name,
counted from the innermost scope. -/
def findDepthRev : List (List String) → String → Option Nat
  | [], _ => none
  | s :: rest, name =>
    if s.contains name then some 0 else (findDepthRev rest name).map (· + 1)

/-- `Resolver::resolve_local` (lines 50-62): walk the scope stack
`.iter().rev()` — innermost to outermost — and take the index of the first
scope containing the name; a name found in no scope falls back to
`scope_stack.len() - 1` (`unwrap_or`), the global scope's depth. The
result is always recorded. -/
def resolveLocalDepth (scopeStack : List (List String)) (name : String) : Nat :=
  (findDepthRev scopeStack.reverse name).getD (scopeStack.length - 1)

structure ResolverState where
  scopeStack : List (List String)
  varRes : List (ExprId × Nat)

/-- `Resolver::define` (lines 74-79): insert into the innermost scope. -/
def ResolverState.define (rs : ResolverState) (name : String) : ResolverState :=
  match rs.scopeStack.getLast? with
  | some s => { rs with scopeStack := rs.scopeStack.dropLast ++ [name :: s] }
  | none => rs

/-- `Resolver::begin_scope` (lines 81-83). -/
def ResolverState.beginScope (rs : ResolverState) : ResolverState :=
  { rs with scopeStack := rs.scopeStack ++ [[]] }

/-- `Resolver::end_scope` (lines 85-87). -/
def ResolverState.endScope (rs : ResolverState) : ResolverState :=
  { rs with scopeStack := rs.scopeStack.dropLast }

/-- Record `(expr_id, depth)` (`interpreter.resolve` →
`Environment::resolve_var`). -/
def ResolverState.resolveLocal (rs : ResolverState) (exprId : ExprId) (name : String) :
    ResolverState :=
  { rs with varRes := (exprId, resolveLocalDepth rs.scopeStack name)
      :: rs.varRes.filter (fun p => p.1 != exprId) }

mutual

/-- `ExprVisitor for Resolver` (lines 144-186). -/
def resolveExpr (fuel : Nat) (arena : AstArena) (rs : ResolverState) (id : ExprId) :
    Option ResolverState :=
  match fuel with
  | 0 => none
  | fuel + 1 =>
    match arena.expressions[id]? with
    | none => none
    | some e =>
      match e with
      | .binaryE _ l r => do
        let rs ← resolveExpr fuel arena rs l
        resolveExpr fuel arena rs r
      | .callE c _ args => do
        let rs ← resolveExpr fuel arena rs c
        resolveExprs fuel arena rs args
      | .groupingE i => resolveExpr fuel arena rs i
      | .literalE _ _ => some rs
      | .unaryE _ r => resolveExpr fuel arena rs r
      | .varE nameTok => some (rs.resolveLocal id nameTok.lexemeName)
      | .assignE nameTok v => do
        let rs ← resolveExpr fuel arena rs v
        some (rs.resolveLocal id nameTok.lexemeName)
      | .logicalE _ l r => do
        let rs ← resolveExpr fuel arena rs l
        resolveExpr fuel arena rs r

def resolveExprs (fuel : Nat) (arena : AstArena) (rs : ResolverState) (ids : List ExprId) :
    Option ResolverState :=
  match fuel with
  | 0 => none
  | fuel + 1 =>
    match ids with
    | [] => some rs
    | id :: rest => do
      let rs ← resolveExpr fuel arena rs id
      resolveExprs fuel arena rs rest

/-- `StmtVisitor for Resolver` (lines 90-142); `visit_function` (138-141)
defines the name in the current scope, then `resolve_fn` (64-72) pushes a
scope, defines the parameters, resolves the body and pops. -/
def resolveStmt (fuel : Nat) (arena : AstArena) (rs : ResolverState) (id : StmtId) :
    Option ResolverState :=
  match fuel with
  | 0 => none
  | fuel + 1 =>
    match arena.statements[id]? with
    | none => none
    | some s =>
      match s with
      | .printS _ e => resolveExpr fuel arena rs e
      | .exprS e => resolveExpr fuel arena rs e
      | .varS ident init => do
        let rs ← match init with
          | some i => resolveExpr fuel arena rs i
          | none => some rs
        some (rs.define ident.lexemeName)
      | .blockS stmts => do
        let rs ← resolveStmts fuel arena rs.beginScope stmts
        some rs.endScope
      | .ifS c t e? => do
        let rs ← resolveExpr fuel arena rs c
        let rs ← resolveStmt fuel arena rs t
        match e? with
        | some e => resolveStmt fuel arena rs e
        | none => some rs
      | .returnS _ e? =>
        match e? with
        | some e => resolveExpr fuel arena rs e
        | none => some rs
      | .whileS c b => do
        let rs ← resolveExpr fuel arena rs c
        resolveStmt fuel arena rs b
      | .funcS nameTok params body => do
        let rs := rs.define nameTok.lexemeName
        let rs := rs.beginScope
        let rs := params.foldl (fun r p => r.define p.lexemeName) rs
        let rs ← resolveStmts fuel arena rs body
        some rs.endScope

def resolveStmts (fuel : Nat) (arena : AstArena) (rs : ResolverState) (ids : List StmtId) :
    Option ResolverState :=
  match fuel with
  | 0 => none
  | fuel + 1 =>
    match ids with
    | [] => some rs
    | id :: rest => do
      let rs ← resolveStmt fuel arena rs id
      resolveStmts fuel arena rs rest

end

/-- `Resolver::new` (lines 26-32): one (empty) global resolver scope. -/
def runResolver (fuel : Nat) (arena : AstArena) (program : List StmtId) :
    Option ResolverState :=
  resolveStmts fuel arena ⟨[[]], []⟩ program

/-! ## Tree-walk evaluator
Embeds `rlox/src/runtime/interpreter.rs` and `Function::call` /
`NativeFunction::call` from `rlox/src/runtime/callable.rs`. The span stack
(`new_span`) only decorates error messages and is dropped; `print` output
is accumulated in the state. `ControlFlow` (`control_flow.rs`) is `CF`. A
note on `visit_function` (interpreter.rs lines 295-299): it builds the
function value with `Function::new(stmt)`, while `Function::new` in
`callable.rs` (lines 72-82) additionally takes the `enclosing_env`
snapshot that `Function::call` requires; the embedding passes the
interpreter's current environment, the only composition under which the
two cited files fit together (both are historical snapshots of the same
evolving file). -/

inductive CF where
  | errC (e : RuntimeErr)
  | retC (o : Object)
  | brkC
  | contC

structure InterpState where
  env : Environment
  output : List Object

/-- `Object::as_callable` arity (`object.rs` lines 115-123 with
`ObjCallable::arity`). -/
def Object.callableArity : Object → Option Nat
  | .func _ _ arity _ _ => some arity
  | .native _ arity => some arity
  | _ => none

mutual

/-- `ExprVisitor for &mut Interpreter` (`interpreter.rs` lines 120-227). -/
def evalExpr (fuel : Nat) (arena : AstArena) (st : InterpState) (id : ExprId) :
    Option (Except RuntimeErr Object × InterpState) :=
  match fuel with
  | 0 => none
  | fuel + 1 =>
    match arena.expressions[id]? with
    | none => some (.error (.internal "invalid arena id"), st)
    | some e =>
      match e with
      | .literalE _ v => some (.ok v, st)
      | .groupingE i => evalExpr fuel arena st i
      | .unaryE op r => do
        let (rv, st) ← evalExpr fuel arena st r
        match rv with
        | .error e => some (.error e, st)
        | .ok v =>
          match op.ty with
          | .minus =>
            match v with
            | .number n => some (.ok (.number (-n)), st)
            | _ => some (.error (.withToken op "Invalid operand"), st)
          | .bang => some (.ok (.boolean (!v.isTruthy)), st)
          | _ => some (.error (.internal "Unexpected unary operator"), st)
      | .binaryE op l r => do
        let (lv, st) ← evalExpr fuel arena st l
        match lv with
        | .error e => some (.error e, st)
        | .ok lv => do
          let (rv, st) ← evalExpr fuel arena st r
          match rv with
          | .error e => some (.error e, st)
          | .ok rv => some (binaryOpResult op lv rv, st)
      | .varE nameTok =>
        match st.env.get id nameTok.lexemeName with
        | some v => some (.ok v, st)
        | none => some (.error (.undefined nameTok), st)
      | .assignE nameTok v => do
        let (vv, st) ← evalExpr fuel arena st v
        match vv with
        | .error e => some (.error e, st)
        | .ok vv =>
          match st.env.assign id nameTok.lexemeName vv with
          | (.ok o, env') => some (.ok o, { st with env := env' })
          | (.error (.undefinedVar n), env') =>
            some (.error (.withToken nameTok ("Undefined variable " ++ n)), { st with env := env' })
      | .logicalE op l r => do
        let (lv, st) ← evalExpr fuel arena st l
        match lv with
        | .error e => some (.error e, st)
        | .ok lv =>
          match op.ty, lv.isTruthy with
          | .kor, true => some (.ok lv, st)
          | .kand, false => some (.ok lv, st)
          | .kor, false => evalExpr fuel arena st r
          | .kand, true => evalExpr fuel arena st r
          | _, _ => some (.error (.internal "invalid logical token"), st)
      | .callE calleeId _ args => do
        let (cv, st) ← evalExpr fuel arena st calleeId
        match cv with
        | .error e => some (.error e, st)
        | .ok callee => do
          let (avs, st) ← evalArgs fuel arena st args
          match avs with
          | .error e => some (.error e, st)
          | .ok avs =>
            match callee.callableArity with
            | none => some (.error .notCallable, st)
            | some arity =>
              if arity ≠ avs.length then
                some (.error (.arity arity avs.length), st)
              else
                callObject fuel arena st callee avs

/-- Argument evaluation, left to right, stopping at the first error. -/
def evalArgs (fuel : Nat) (arena : AstArena) (st : InterpState) (ids : List ExprId) :
    Option (Except RuntimeErr (List Object) × InterpState) :=
  match fuel with
  | 0 => none
  | fuel + 1 =>
    match ids with
    | [] => some (.ok [], st)
    | id :: rest => do
      let (v, st) ← evalExpr fuel arena st id
      match v with
      | .error e => some (.error e, st)
      | .ok v => do
        let (vs, st) ← evalArgs fuel arena st rest
        match vs with
        | .error e => some (.error e, st)
        | .ok vs => some (.ok (v :: vs), st)

/-- `Function::call` (`callable.rs` lines 94-127) and
`NativeFunction::call` (lines 52-61). For a user function: clone the
callsite environment, replace the interpreter's environment with a clone
of the captured `enclosing_env`, push a scope, define the parameters,
execute the body, catch `Return` into the call's value (else `nil`), pop
the scope, and restore the callsite environment. Environments have value
semantics here exactly because `Environment` is a plain `Vec`-of-maps
`Clone` in this source. The built-in `clock` returns the current time,
modeled as the constant 0. -/
def callObject (fuel : Nat) (arena : AstArena) (st : InterpState) (callee : Object)
    (args : List Object) : Option (Except RuntimeErr Object × InterpState) :=
  match fuel with
  | 0 => none
  | fuel + 1 =>
    match callee with
    | .native _ _ =>
      -- new_env push + InterpreterScope drop pop around the builtin body
      some (.ok (.number 0), st)
    | .func decl _ _ encStack encVarRes =>
      let callsiteEnv := st.env
      let st := { st with env := ⟨encStack, encVarRes⟩ }
      let st := { st with env := st.env.pushScope }
      match arena.statements[decl]? with
      | some (.funcS _ params body) => do
        let st := (params.zip args).foldl
          (fun s pa => { s with env := s.env.define pa.1.lexemeName pa.2 }) st
        let (r, st) ← execStmts fuel arena st body
        let st := { st with env := st.env.popScope }
        let result : Except RuntimeErr Object :=
          match r with
          | .ok _ => .ok .nil
          | .error (.retC o) => .ok o
          | .error (.errC e) => .error e
          | .error _ => .error .invalidBreakOrContinue
        some (result, { st with env := callsiteEnv })
      | _ => some (.error (.internal "cast to StmtFunction failed"), { st with env := callsiteEnv })
    | _ => some (.error .notCallable, st)

/-- `StmtVisitor for &mut Interpreter` (`interpreter.rs` lines 229-300). -/
def execStmt (fuel : Nat) (arena : AstArena) (st : InterpState) (id : StmtId) :
    Option (Except CF Unit × InterpState) :=
  match fuel with
  | 0 => none
  | fuel + 1 =>
    match arena.statements[id]? with
    | none => some (.error (.errC (.internal "invalid arena id")), st)
    | some s =>
      match s with
      | .printS _ e => do
        let (v, st) ← evalExpr fuel arena st e
        match v with
        | .error e => some (.error (.errC e), st)
        | .ok v => some (.ok (), { st with output := st.output ++ [v] })
      | .exprS e => do
        let (v, st) ← evalExpr fuel arena st e
        match v with
        | .error e => some (.error (.errC e), st)
        | .ok _ => some (.ok (), st)
      | .varS ident init => do
        let (v, st) ← match init with
          | some i => evalExpr fuel arena st i
          | none => some (.ok Object.nil, st)
        match v with
        | .error e => some (.error (.errC e), st)
        | .ok v => some (.ok (), { st with env := st.env.define ident.lexemeName v })
      | .blockS stmts => do
        let st := { st with env := st.env.pushScope }
        let (r, st) ← execStmts fuel arena st stmts
        -- InterpreterScope drop: the pop happens on every exit path
        some (r, { st with env := st.env.popScope })
      | .ifS c t e? => do
        let (cv, st) ← evalExpr fuel arena st c
        match cv with
        | .error e => some (.error (.errC e), st)
        | .ok cv =>
          if cv.isTruthy then
            execStmt fuel arena st t
          else
            match e? with
            | some e => execStmt fuel arena st e
            | none => some (.ok (), st)
      | .returnS _ e? => do
        let (v, st) ← match e? with
          | some e => evalExpr fuel arena st e
          | none => some (.ok Object.nil, st)
        match v with
        | .error e => some (.error (.errC e), st)
        | .ok v => some (.error (.retC v), st)
      | .whileS c b => do
        let (cv, st) ← evalExpr fuel arena st c
        match cv with
        | .error e => some (.error (.errC e), st)
        | .ok cv =>
          if cv.isTruthy then do
            let (r, st) ← execStmt fuel arena st b
            match r with
            | .ok _ => execStmt fuel arena st id
            | .error e => some (.error e, st)
          else
            some (.ok (), st)
      | .funcS nameTok params _ =>
        let f := Object.func id nameTok.lexemeName params.length
          st.env.stack st.env.varResolution
        some (.ok (), { st with env := st.env.define nameTok.lexemeName f })

/-- `Interpreter::execute_block` (lines 76-84): straight sequencing, first
control-flow exit wins. -/
def execStmts (fuel : Nat) (arena : AstArena) (st : InterpState) (ids : List StmtId) :
    Option (Except CF Unit × InterpState) :=
  match fuel with
  | 0 => none
  | fuel + 1 =>
    match ids with
    | [] => some (.ok (), st)
    | id :: rest => do
      let (r, st) ← execStmt fuel arena st id
      match r with
      | .ok _ => execStmts fuel arena st rest
      | .error e => some (.error e, st)

end

/-- `Interpreter::interpret` (lines 40-61): execute each statement;
`Break`/`Continue`/`Return` escaping to the top level become runtime
errors. -/
def interpret (fuel : Nat) (arena : AstArena) (st : InterpState) (program : List StmtId) :
    Option (Except RuntimeErr Unit × InterpState) := do
  let (r, st) ← execStmts fuel arena st program
  match r with
  | .ok _ => some (.ok (), st)
  | .error (.brkC) => some (.error .invalidBreakOrContinue, st)
  | .error (.contC) => some (.error .invalidBreakOrContinue, st)
  | .error (.retC _) => some (.error .invalidReturn, st)
  | .error (.errC e) => some (.error e, st)

/-- End-to-end run: `Interpreter::new` seeds the global scope with the
`clock` built-in; the resolver fills `var_resolution`; then `interpret`. -/
def runProgram (fuel : Nat) (arena : AstArena) (program : List StmtId) :
    Option (Except RuntimeErr Unit × InterpState) := do
  let rs ← runResolver fuel arena program
  let env0 : Environment := ⟨[[("clock", Object.native "clock" 0)]], rs.varRes⟩
  interpret fuel arena ⟨env0, []⟩ program

/-! ### C2: what the resolver records -/

theorem findDepthRev_none_iff (l : List (List String)) (name : String) :
    findDepthRev l name = none ↔ ∀ s ∈ l, s.contains name = false := by
  induction l with
  | nil => simp [findDepthRev]
  | cons s rest ih =>
    rw [findDepthRev]
    by_cases hc : s.contains name = true
    · rw [if_pos hc]
      constructor
      · intro h; cases h
      · intro h
        have := h s (List.mem_cons_self s rest)
        rw [hc] at this
        cases this
    · rw [if_neg hc, Option.map_eq_none', ih]
      constructor
      · intro h x hx
        rcases List.mem_cons.mp hx with h1 | h2
        · subst h1; simpa using hc
        · exact h x h2
      · intro h x hx
        exact h x (List.mem_cons_of_mem s hx)

theorem findDepthRev_some (l : List (List String)) (name : String) (d : Nat)
    (h : findDepthRev l name = some d) :
    d < l.length ∧ (∃ s, l[d]? = some s ∧ s.contains name = true) ∧
      ∀ (k : Nat), k < d → ∀ (s : List String), l[k]? = some s → s.contains name = false := by
  induction l generalizing d with
  | nil => simp [findDepthRev] at h
  | cons s rest ih =>
    rw [findDepthRev] at h
    by_cases hc : s.contains name = true
    · rw [if_pos hc] at h
      injection h with h
      subst h
      exact ⟨by simp, ⟨s, by simp, hc⟩, by omega⟩
    · rw [if_neg hc] at h
      rw [Option.map_eq_some'] at h
      obtain ⟨d', hd', hdd⟩ := h
      subst hdd
      obtain ⟨h1, ⟨s', hs', hcs'⟩, hmin⟩ := ih d' hd'
      refine ⟨by simp; omega, ⟨s', by simpa using hs', hcs'⟩, ?_⟩
      intro k hk s'' hs''
      match k with
      | 0 =>
        simp only [List.getElem?_cons_zero, Option.some.injEq] at hs''
        subst hs''
        simpa using hc
      | k + 1 =>
        exact hmin k (by omega) s'' (by simpa using hs'')

/-- C2 (amended): `resolve_local` walks the scope stack
innermost-to-outermost (not outermost-to-innermost) and always records a
depth: the hop count of the first scope containing the name when one
exists — every nearer scope missing it — and `scope_stack.len() - 1` (the
global scope's depth) for a name found in no scope; no error is raised
either way. -/
theorem resolver_depth_char (stack : List (List String)) (name : String)
    (h : stack ≠ []) :
    resolveLocalDepth stack name < stack.length
    ∧ ((∀ s ∈ stack, s.contains name = false) →
        resolveLocalDepth stack name = stack.length - 1)
    ∧ ((∃ s ∈ stack, s.contains name = true) →
        (∃ s, stack.reverse[resolveLocalDepth stack name]? = some s ∧ s.contains name = true)
        ∧ ∀ (k : Nat), k < resolveLocalDepth stack name →
            ∀ (s : List String), stack.reverse[k]? = some s → s.contains name = false) := by
  rw [resolveLocalDepth]
  cases hf : findDepthRev stack.reverse name with
  | none =>
    have hall := (findDepthRev_none_iff stack.reverse name).mp hf
    refine ⟨?_, fun _ => rfl, ?_⟩
    · have : stack.length ≠ 0 := fun hz => h (List.eq_nil_of_length_eq_zero hz)
      simp only [Option.getD_none]
      omega
    · rintro ⟨s, hs, hcs⟩
      exact absurd (hall s (List.mem_reverse.mpr hs)) (by rw [hcs]; simp)
  | some d =>
    obtain ⟨h1, h2, h3⟩ := findDepthRev_some stack.reverse name d hf
    rw [List.length_reverse] at h1
    simp only [Option.getD_some]
    refine ⟨h1, ?_, fun _ => ⟨h2, h3⟩⟩
    intro hall
    exfalso
    have := (findDepthRev_none_iff stack.reverse name).mpr
      (fun s hs => hall s (List.mem_reverse.mp hs))
    rw [hf] at this
    cases this

/-- C2 witness: on the stack with `x` bound only in the global scope, the
recorded depth is within the stack and designates a scope containing the
name (depth 1, counted from the innermost scope). -/
theorem resolver_depth_char_witness :
    resolveLocalDepth [["x"], []] "x" < 2
    ∧ (∃ s, [["x"], []].reverse[resolveLocalDepth [["x"], []] "x"]? = some s
        ∧ s.contains "x" = true) :=
  ⟨(resolver_depth_char [["x"], []] "x" (by simp)).1,
   ((resolver_depth_char [["x"], []] "x" (by simp)).2.2 ⟨["x"], by simp, by simp⟩).1⟩

/-- C2 counterexample: a program that is just the expression statement `x;`
with `x` bound in no scope. The claim says nothing is recorded for a name
found in no scope, but the resolver records `(expr 0, depth 0)` — the
`unwrap_or(scope_stack.len() - 1)` fallback — as the full resolver run
shows. -/
def unboundVarArena : AstArena :=
  ⟨[Expr.varE ⟨.identifier "x", Span.default⟩], [Stmt.exprS 0]⟩

theorem resolver_records_unbound :
    (runResolver 8 unboundVarArena [0]).map (fun rs => rs.varRes) = some [(0, 0)]
    ∧ findDepthRev [[]] "x" = none :=
  ⟨rfl, rfl⟩

/-! ### C1: closure capture across invocations -/

def identTok (s : String) : Token := ⟨.identifier s, Span.default⟩
def plusTok : Token := ⟨.plus, Span.default⟩
def rparenTok : Token := ⟨.rightParen, Span.default⟩
def printTok : Token := ⟨.kprint, Span.default⟩
def returnTok : Token := ⟨.kreturn, Span.default⟩

/-- The AST of end-to-end scenario 4:
`fun make() { var x = 0; fun inc() { x = x + 1; return x; } return inc; }
var c = make(); print c(); print c();`
laid out in the arena exactly as the parser would allocate it. -/
def scenario4Arena : AstArena :=
  ⟨[ /- e0 -/ .literalE ⟨.number "0", Span.default⟩ (Object.number 0),
     /- e1 -/ .varE (identTok "x"),
     /- e2 -/ .literalE ⟨.number "1", Span.default⟩ (Object.number 1),
     /- e3 -/ .binaryE plusTok 1 2,
     /- e4 -/ .assignE (identTok "x") 3,
     /- e5 -/ .varE (identTok "x"),
     /- e6 -/ .varE (identTok "inc"),
     /- e7 -/ .varE (identTok "make"),
     /- e8 -/ .callE 7 rparenTok [],
     /- e9 -/ .varE (identTok "c"),
     /- e10 -/ .callE 9 rparenTok [],
     /- e11 -/ .varE (identTok "c"),
     /- e12 -/ .callE 11 rparenTok []],
   [ /- st0 -/ .exprS 4,
     /- st1 -/ .returnS returnTok (some 5),
     /- st2 -/ .varS (identTok "x") (some 0),
     /- st3 -/ .funcS (identTok "inc") [] [0, 1],
     /- st4 -/ .returnS returnTok (some 6),
     /- st5 -/ .funcS (identTok "make") [] [2, 3, 4],
     /- st6 -/ .varS (identTok "c") (some 8),
     /- st7 -/ .printS printTok 10,
     /- st8 -/ .printS printTok 12]⟩

def scenario4Program : List StmtId := [5, 6, 7, 8]

/-- C1: running scenario 4 end to end (resolver then evaluator) succeeds
and prints `1` then `1` — not `1` then `2`. The counter closure's mutation
of `x` does not survive the call: `Function::call` replaces the
interpreter's environment with a clone of the captured `enclosing_env`,
and on return restores the deep-cloned callsite environment, so the
increment performed inside the call is discarded and `self.enclosing_env`
(behind `&self`) is never updated. The claim (and the repository's own
closure test matrix) requires the second call to observe the first call's
mutation. -/
theorem closure_counter_prints_1_1 :
    (runProgram 50 scenario4Arena scenario4Program).map
      (fun r => ((match r.1 with | .ok _ => true | .error _ => false), r.2.output))
      = some (true, [Object.number 1, Object.number 1]) := by
  have h : (runProgram 50 scenario4Arena scenario4Program).map
      (fun r => ((match r.1 with | .ok _ => true | .error _ => false), r.2.output))
      = some (true, [Object.number ((0 : Rat) + 1), Object.number ((0 : Rat) + 1)]) := by
    rfl
  rw [h]
  norm_num

end Rlox
